import Mathlib

/-!
Verification development for autogluon multimodal
src/autogluon/multimodal/data/dataset.py (class BaseDataset).

Shallow embedding conventions:
* A Python dict with string keys is an insertion-ordered association list;
  dict equality in the claims is stated on these lists, and update follows
  CPython semantics (existing keys keep their position, new keys append).
* Model-agnostic features produced by a preprocessor (the value of
  transform_<modality>(data)) are a dict mapping a column name to a column
  of sample values; truthiness is non-emptiness, and
  len(features[next(iter(features))]) is the length of the first column.
* A preprocessor applied to the fixed input DataFrame is a function from
  the modality name to its features: getattr(pre, "transform_" + m)(data).
* A per-model data processor is a function of (features, idx, is_training)
  that either returns a dict of model inputs or raises (Except.error).
* Object attributes written by setattr(self, f"{modality}_{i}", v) are an
  association list keyed by (modality, i); writes prepend and reads take
  the first match, which models attribute overwriting.
* GET_ITEM_ERROR_RETRY comes from ..constants (not part of the provided
  sources); its concrete value never matters to the claims, so the retry
  bound is a parameter of the __getitem__ model.
-/

/-- Sample values inside feature columns and model-input dicts. -/
abbrev Val := Int

/-- A Python dict from string keys to values, as an insertion-ordered list. -/
abbrev Dict := List (String × Val)

/-- Model-agnostic features for one modality: column name to column. -/
abbrev Features := List (String × List Val)

/-- A per-model data processor: (per_modality_features, idx, is_training). -/
abbrev Processor := Features → Nat → Bool → Except String Dict

/-- One element of the processors list: a dict mapping a modality name to
its per-model processors. -/
abbrev ProcGroup := List (String × List Processor)

/-- A preprocessor already applied to the input DataFrame:
m ↦ getattr(per_preprocessor, "transform_" + m)(data). -/
abbrev Preprocessor := String → Features

/-- Attribute store for the setattr(self, f"{modality}_{i}", features)
attributes. -/
abbrev Attrs := List ((String × Nat) × Features)

/-- dict.__setitem__ semantics for a single key: replace in place if the
key exists, else append. -/
def updateOne (d : Dict) (k : String) (v : Val) : Dict :=
  if d.any (fun kv => kv.1 == k) then
    d.map (fun kv => if kv.1 == k then (k, v) else kv)
  else
    d ++ [(k, v)]

/-- ret.update(other): fold dict.__setitem__ over the entries of other. -/
def dictUpdate (d other : Dict) : Dict :=
  other.foldl (fun acc kv => updateOne acc kv.1 kv.2) d

/-- len(features[next(iter(features))]): length of the first column. Only
consulted on non-empty features, where the default is irrelevant. -/
def firstColLen (f : Features) : Nat :=
  (f.headD ("", [])).2.length

/-- The state of a BaseDataset object. -/
structure BaseDataset where
  processors : List ProcGroup
  is_training : Bool
  consecutive_errors : Nat
  attrs : Attrs
  lengths : List Nat

/-- getattr(self, f"{m}_{i}") as a partial lookup. -/
def getAttr? (d : BaseDataset) (m : String) (i : Nat) : Option Features :=
  (d.attrs.find? (fun a => a.1 == (m, i))).map (fun a => a.2)

/-- getattr(self, f"{m}_{i}") inside the try block: a missing attribute
raises AttributeError, which the except clause catches like any other
exception. -/
def getAttrE (d : BaseDataset) (m : String) (i : Nat) : Except String Features :=
  match getAttr? d m i with
  | some f => .ok f
  | none => .error "AttributeError"

/-! ### __init__ -/

/-- One iteration of the inner loop of __init__ (one per_modality):
per_modality_features = getattr(per_preprocessor, ...)(data);
setattr(self, f"{per_modality}_{i}", per_modality_features);
if per_modality_features: self.lengths.append(len(...)). -/
def modalityStep (pre : Preprocessor) (i : Nat) (m : String)
    (st : Attrs × List Nat) : Attrs × List Nat :=
  let feats := pre m
  (((m, i), feats) :: st.1,
   if feats.isEmpty then st.2 else st.2 ++ [firstColLen feats])

/-- The inner loop of __init__ over the keys of one processors group. -/
def groupInit (pre : Preprocessor) (i : Nat) : ProcGroup → Attrs × List Nat → Attrs × List Nat
  | [], st => st
  | mp :: rest, st => groupInit pre i rest (modalityStep pre i mp.1 st)

/-- The outer loop of __init__:
for i, (per_preprocessor, per_processors_group) in enumerate(zip(...)). -/
def initLoop : Nat → List Preprocessor → List ProcGroup → Attrs × List Nat → Attrs × List Nat
  | _, [], _, st => st
  | _, _ :: _, [], st => st
  | i, pre :: pres, g :: gs, st => initLoop (i + 1) pres gs (groupInit pre i g st)

/-- BaseDataset.__init__. Returns none when the trailing
assert len(set(self.lengths)) == 1 fails (AssertionError), otherwise the
constructed object: processors and is_training stored as given,
_consecutive_errors = 0, and the attribute store and lengths produced by
the loops. List.dedup models set(...) for the cardinality test. -/
def initDataset (preprocessor : List Preprocessor) (processors : List ProcGroup)
    (is_training : Bool) : Option BaseDataset :=
  let st := initLoop 0 preprocessor processors ([], [])
  if st.2.dedup.length = 1 then
    some { processors := processors, is_training := is_training,
           consecutive_errors := 0, attrs := st.1, lengths := st.2 }
  else
    none

/-! ### __len__ -/

/-- BaseDataset.__len__, faithfully partial: self.lengths[0] raises
IndexError on an empty list. -/
def lenOf? (d : BaseDataset) : Option Nat :=
  d.lengths.head?

/-- Total version of __len__ used inside __getitem__; after a successful
__init__ the lengths list is non-empty, so the default is never consulted. -/
def lenOf (d : BaseDataset) : Nat :=
  d.lengths.headD 0

/-! ### __getitem__ -/

/-- The innermost loop of the try block for a fixed group index i and
modality m: for per_model_processor in per_modality_processors:
fetch the stored features, skip falsy (empty) features, otherwise
ret.update(per_model_processor(per_modality_features, idx, self.is_training)).
Any raised exception short-circuits (Except). -/
def procLoop (d : BaseDataset) (idx i : Nat) (m : String)
    (procs : List Processor) (ret : Dict) : Except String Dict :=
  procs.foldlM (fun ret p => do
    let feats ← getAttrE d m i
    if feats.isEmpty then
      pure ret
    else do
      let out ← p feats idx d.is_training
      pure (dictUpdate ret out)) ret

/-- The middle loop: for per_modality, per_modality_processors in
per_processors_group.items(). -/
def groupLoop (d : BaseDataset) (idx i : Nat) (g : ProcGroup) (ret : Dict) :
    Except String Dict :=
  g.foldlM (fun ret mp => procLoop d idx i mp.1 mp.2 ret) ret

/-- The whole try block of __getitem__: ret = dict(); nested loops over
enumerate(self.processors); returns ret or the first raised exception. -/
def tryBody (d : BaseDataset) (idx : Nat) : Except String Dict :=
  d.processors.enum.foldlM (fun ret ig => groupLoop d idx ig.1 ig.2 ret) []

/-- BaseDataset.__getitem__ with the module constant GET_ITEM_ERROR_RETRY
as the parameter retry. Returns the updated object state together with
the returned dict or the propagated exception. On success
self._consecutive_errors = 0; on failure the counter is incremented, and
the call either retries at (idx + 1) % self.__len__() or re-raises. -/
def getitem (retry : Nat) (d : BaseDataset) (idx : Nat) : BaseDataset × Except String Dict :=
  match tryBody d idx with
  | .ok ret => ({ d with consecutive_errors := 0 }, .ok ret)
  | .error e =>
    if h : d.consecutive_errors + 1 < retry then
      getitem retry { d with consecutive_errors := d.consecutive_errors + 1 }
        ((idx + 1) % lenOf d)
    else
      ({ d with consecutive_errors := d.consecutive_errors + 1 }, .error e)
termination_by retry - d.consecutive_errors
decreasing_by
  show retry - (d.consecutive_errors + 1) < retry - d.consecutive_errors
  omega

/-! ### Spec-side definitions (refinement targets) -/

/-- For one modality entry mp of group i: the per-model processor results
on that modality's stored features, or nothing when the stored features are
empty (falsy). -/
def callsFor (d : BaseDataset) (idx i : Nat) (mp : String × List Processor) :
    List (Except String Dict) :=
  let feats := (getAttr? d mp.1 i).getD []
  if feats.isEmpty then [] else mp.2.map (fun p => p feats idx d.is_training)

/-- All processor call results of one enumerated group. -/
def groupCalls (d : BaseDataset) (idx : Nat) (ig : Nat × ProcGroup) :
    List (Except String Dict) :=
  ig.2.flatMap (callsFor d idx ig.1)

/-- Follows the spec sentence for C4: the list of results of
per_model_processor(per_modality_features, idx, is_training) over every
processor group i, every modality in that group whose stored features are
non-empty, and every per-model processor for that modality, left to right. -/
def processorCalls (d : BaseDataset) (idx : Nat) : List (Except String Dict) :=
  d.processors.enum.flatMap (groupCalls d idx)

/-- Merging one call result into the accumulated dict: errors propagate,
a returned dict is merged with ret.update semantics. -/
def mergeStep (acc : Dict) (c : Except String Dict) : Except String Dict :=
  c.map (fun out => dictUpdate acc out)

/-- Follows the spec sentence for C4: the left-to-right merged union of the
processor call results, starting from the empty dict; any raised exception
short-circuits in call order. -/
def mergedUnion (d : BaseDataset) (idx : Nat) : Except String Dict :=
  (processorCalls d idx).foldlM mergeStep []

/-- Every attribute read by the try block is actually present: for each
group i of self.processors and each modality key in it, the attribute
<modality>_<i> exists. Holds after a successful __init__ when the two
zipped lists have equal length. -/
def attrsPresent (d : BaseDataset) : Prop :=
  ∀ ig ∈ d.processors.enum, ∀ mp ∈ ig.2, (getAttr? d mp.1 ig.1).isSome

set_option synthInstance.maxHeartbeats 1000000 in
instance (d : BaseDataset) : Decidable (attrsPresent d) :=
  inferInstanceAs (Decidable (∀ ig ∈ d.processors.enum, ∀ mp ∈ ig.2,
    (getAttr? d mp.1 ig.1).isSome = true))

/-- The index visited after k retry hops starting from idx, with dataset
length len: idx itself for k = 0, then (previous + 1) % len. -/
def chainIdx (len idx : Nat) : Nat → Nat
  | 0 => idx
  | k + 1 => (chainIdx len idx k + 1) % len

/-! ### Concrete example data (used by witness theorems) -/

/-- A feature dict with one column of two samples. -/
def fTwo : Features := [("c", [5, 6])]

/-- A processor that raises on index 0 and succeeds elsewhere. -/
def pAt0Fails : Processor := fun _ idx _ =>
  if idx = 0 then .error "boom" else .ok [("v", (idx : Int))]

/-- A processor that always raises. -/
def pFail : Processor := fun _ _ _ => .error "bad"

/-- A preprocessor whose transform_text yields fTwo and every other
modality nothing. -/
def preA : Preprocessor := fun m => if m = "text" then fTwo else []

/-- One processors group: the text modality handled by pAt0Fails. -/
def procsA : List ProcGroup := [[("text", [pAt0Fails])]]

/-- The dataset state built by __init__ from preA and procsA. -/
def d0 : BaseDataset :=
  { processors := procsA, is_training := false, consecutive_errors := 0,
    attrs := [(("text", 0), fTwo)], lengths := [2] }

/-- Like d0 but with an extra stored attribute under an unregistered key. -/
def d0b : BaseDataset :=
  { d0 with attrs := d0.attrs ++ [(("image", 5), fTwo)] }

/-- A dataset whose single processor always raises. -/
def dBad : BaseDataset :=
  { processors := [[("text", [pFail])]], is_training := false,
    consecutive_errors := 0, attrs := [(("text", 0), fTwo)], lengths := [2] }

/-! ### Generic helper lemmas -/

theorem exceptFoldlM_append {α β : Type} (f : β → α → Except String β) (l l₂ : List α) :
    ∀ b, (l ++ l₂).foldlM f b = l.foldlM f b >>= fun x => l₂.foldlM f x := by
  induction l with
  | nil => intro b; simp [List.foldlM_nil]
  | cons a l ih =>
    intro b
    rw [List.cons_append, List.foldlM_cons, List.foldlM_cons]
    cases f b a with
    | ok x => exact ih x
    | error e => rfl

theorem dedup_length_one_iff (l : List Nat) :
    l.dedup.length = 1 ↔ l ≠ [] ∧ ∀ x ∈ l, ∀ y ∈ l, x = y := by
  constructor
  · intro h
    obtain ⟨a, ha⟩ := List.length_eq_one.mp h
    have hmem : ∀ x ∈ l, x = a := by
      intro x hx
      have hx2 : x ∈ l.dedup := List.mem_dedup.mpr hx
      rw [ha] at hx2
      simpa using hx2
    refine ⟨?_, ?_⟩
    · intro hnil
      rw [hnil] at ha
      simp at ha
    · intro x hx y hy
      rw [hmem x hx, hmem y hy]
  · rintro ⟨hne, hall⟩
    obtain ⟨a, ha⟩ := List.exists_mem_of_ne_nil l hne
    have h1 : a ∈ l.dedup := List.mem_dedup.mpr ha
    have hnd := l.nodup_dedup
    cases hd : l.dedup with
    | nil =>
      rw [hd] at h1
      simp at h1
    | cons x xs =>
      cases xs with
      | nil => simp
      | cons y ys =>
        have hx : x ∈ l := List.mem_dedup.mp (by rw [hd]; exact List.mem_cons_self ..)
        have hy : y ∈ l := by
          refine List.mem_dedup.mp ?_
          rw [hd]
          exact List.mem_cons_of_mem _ (List.mem_cons_self ..)
        have hxy : x = y := (hall x hx y hy)
        rw [hd] at hnd
        rcases List.nodup_cons.mp hnd with ⟨hnx, _⟩
        exact absurd (hxy ▸ List.mem_cons_self ..) hnx

theorem chainIdx_shift (len idx : Nat) :
    ∀ k, chainIdx len ((idx + 1) % len) k = chainIdx len idx (k + 1) := by
  intro k
  induction k with
  | zero => rfl
  | succ k ih => simp only [chainIdx, ih]

/-! ### Lemmas about __init__ -/

theorem groupInit_fst_mem (pre : Preprocessor) (i : Nat) :
    ∀ (g : ProcGroup) (st : Attrs × List Nat) (a : (String × Nat) × Features),
      a ∈ (groupInit pre i g st).1 ↔
        a ∈ st.1 ∨ ∃ mp ∈ g, a = ((mp.1, i), pre mp.1) := by
  intro g
  induction g with
  | nil => intro st a; simp [groupInit]
  | cons mp rest ih =>
    intro st a
    rw [groupInit, ih]
    have hstep : (modalityStep pre i mp.1 st).1 = ((mp.1, i), pre mp.1) :: st.1 := by
      simp [modalityStep]
    rw [hstep]
    constructor
    · rintro (h | ⟨mp2, hmp2, h⟩)
      · rcases List.mem_cons.mp h with h1 | h1
        · right; exact ⟨mp, List.mem_cons_self .., h1⟩
        · left; exact h1
      · right; exact ⟨mp2, List.mem_cons_of_mem _ hmp2, h⟩
    · rintro (h | ⟨mp2, hmp2, h⟩)
      · left; exact List.mem_cons_of_mem _ h
      · rcases List.mem_cons.mp hmp2 with h1 | h1
        · left; rw [h, h1]; exact List.mem_cons_self ..
        · right; exact ⟨mp2, h1, h⟩

theorem groupInit_snd_mem (pre : Preprocessor) (i : Nat) :
    ∀ (g : ProcGroup) (st : Attrs × List Nat) (x : Nat),
      x ∈ (groupInit pre i g st).2 ↔
        x ∈ st.2 ∨ ∃ mp ∈ g, (pre mp.1).isEmpty = false ∧ x = firstColLen (pre mp.1) := by
  intro g
  induction g with
  | nil => intro st x; simp [groupInit]
  | cons mp rest ih =>
    intro st x
    rw [groupInit, ih]
    cases hemp : (pre mp.1).isEmpty with
    | true =>
      have hstep : (modalityStep pre i mp.1 st).2 = st.2 := by
        simp [modalityStep, hemp]
      rw [hstep]
      constructor
      · rintro (h | ⟨mp2, hmp2, h⟩)
        · left; exact h
        · right; exact ⟨mp2, List.mem_cons_of_mem _ hmp2, h⟩
      · rintro (h | ⟨mp2, hmp2, h⟩)
        · left; exact h
        · rcases List.mem_cons.mp hmp2 with h1 | h1
          · exfalso
            rw [h1, hemp] at h
            simp at h
          · right; exact ⟨mp2, h1, h⟩
    | false =>
      have hstep : (modalityStep pre i mp.1 st).2 = st.2 ++ [firstColLen (pre mp.1)] := by
        simp [modalityStep, hemp]
      rw [hstep]
      constructor
      · rintro (h | ⟨mp2, hmp2, h⟩)
        · rcases List.mem_append.mp h with h2 | h2
          · left; exact h2
          · right
            refine ⟨mp, List.mem_cons_self .., hemp, ?_⟩
            simpa using h2
        · right; exact ⟨mp2, List.mem_cons_of_mem _ hmp2, h⟩
      · rintro (h | ⟨mp2, hmp2, h⟩)
        · left; exact List.mem_append.mpr (Or.inl h)
        · rcases List.mem_cons.mp hmp2 with h1 | h1
          · left
            refine List.mem_append.mpr (Or.inr ?_)
            rw [h.2, h1]
            exact List.mem_singleton.mpr rfl
          · right; exact ⟨mp2, h1, h⟩

theorem initLoop_fst_mem :
    ∀ (pres : List Preprocessor) (gs : List ProcGroup) (i : Nat)
      (st : Attrs × List Nat) (a : (String × Nat) × Features),
      a ∈ (initLoop i pres gs st).1 ↔
        a ∈ st.1 ∨ ∃ (k : Nat) (p : Preprocessor) (g : ProcGroup),
          pres[k]? = some p ∧ gs[k]? = some g ∧
          ∃ mp ∈ g, a = ((mp.1, i + k), p mp.1) := by
  intro pres
  induction pres with
  | nil => intro gs i st a; simp [initLoop]
  | cons pre pres ih =>
    intro gs i st a
    cases gs with
    | nil => simp [initLoop]
    | cons g gs =>
      rw [initLoop, ih, groupInit_fst_mem]
      constructor
      · rintro ((h | ⟨mp, hmp, h⟩) | ⟨k, p, g2, hp, hg, mp, hmp, h⟩)
        · left; exact h
        · right
          refine ⟨0, pre, g, by simp, by simp, mp, hmp, ?_⟩
          simpa using h
        · right
          refine ⟨k + 1, p, g2, by simpa using hp, by simpa using hg, mp, hmp, ?_⟩
          have hk : i + 1 + k = i + (k + 1) := by omega
          rw [h, hk]
      · rintro (h | ⟨k, p, g2, hp, hg, mp, hmp, h⟩)
        · left; left; exact h
        · cases k with
          | zero =>
            left; right
            simp only [List.getElem?_cons_zero, Option.some.injEq] at hp hg
            subst hp
            subst hg
            refine ⟨mp, hmp, ?_⟩
            simpa using h
          | succ k =>
            right
            refine ⟨k, p, g2, by simpa using hp, by simpa using hg, mp, hmp, ?_⟩
            have hk : i + (k + 1) = i + 1 + k := by omega
            rw [h, hk]

theorem initLoop_snd_mem :
    ∀ (pres : List Preprocessor) (gs : List ProcGroup) (i : Nat)
      (st : Attrs × List Nat) (x : Nat),
      x ∈ (initLoop i pres gs st).2 ↔
        x ∈ st.2 ∨ ∃ (k : Nat) (p : Preprocessor) (g : ProcGroup),
          pres[k]? = some p ∧ gs[k]? = some g ∧
          ∃ mp ∈ g, (p mp.1).isEmpty = false ∧ x = firstColLen (p mp.1) := by
  intro pres
  induction pres with
  | nil => intro gs i st x; simp [initLoop]
  | cons pre pres ih =>
    intro gs i st x
    cases gs with
    | nil => simp [initLoop]
    | cons g gs =>
      rw [initLoop, ih, groupInit_snd_mem]
      constructor
      · rintro ((h | ⟨mp, hmp, h⟩) | ⟨k, p, g2, hp, hg, mp, hmp, h⟩)
        · left; exact h
        · right; exact ⟨0, pre, g, by simp, by simp, mp, hmp, h⟩
        · right
          exact ⟨k + 1, p, g2, by simpa using hp, by simpa using hg, mp, hmp, h⟩
      · rintro (h | ⟨k, p, g2, hp, hg, mp, hmp, h⟩)
        · left; left; exact h
        · cases k with
          | zero =>
            left; right
            simp only [List.getElem?_cons_zero, Option.some.injEq] at hp hg
            subst hp
            subst hg
            exact ⟨mp, hmp, h⟩
          | succ k =>
            right
            exact ⟨k, p, g2, by simpa using hp, by simpa using hg, mp, hmp, h⟩

theorem initDataset_fields (pre : List Preprocessor) (procs : List ProcGroup)
    (tr : Bool) (d : BaseDataset) (h : initDataset pre procs tr = some d) :
    d.processors = procs ∧ d.is_training = tr ∧ d.consecutive_errors = 0 ∧
    d.attrs = (initLoop 0 pre procs ([], [])).1 ∧
    d.lengths = (initLoop 0 pre procs ([], [])).2 ∧
    (initLoop 0 pre procs ([], [])).2.dedup.length = 1 := by
  by_cases hc : (initLoop 0 pre procs ([], [])).2.dedup.length = 1
  · rw [initDataset] at h
    simp only [hc, if_true] at h
    obtain rfl := Option.some.inj h
    exact ⟨rfl, rfl, rfl, rfl, rfl, hc⟩
  · rw [initDataset] at h
    simp only [hc, if_false] at h
    exact absurd h (by simp)

/-! ### Lemmas about the try block of __getitem__ -/

theorem excBindOk {α β : Type} (a : α) (f : α → Except String β) :
    (Except.ok a >>= f) = f a := rfl

theorem excBindErr {α β : Type} (e : String) (f : α → Except String β) :
    ((Except.error e : Except String α) >>= f) = .error e := rfl

theorem excPureBind {α β : Type} (a : α) (f : α → Except String β) :
    ((pure a : Except String α) >>= f) = f a := rfl

theorem procLoop_nil (d : BaseDataset) (idx i : Nat) (m : String) (ret : Dict) :
    procLoop d idx i m [] ret = .ok ret := rfl

theorem procLoop_cons (d : BaseDataset) (idx i : Nat) (m : String)
    (p : Processor) (procs : List Processor) (ret : Dict) :
    procLoop d idx i m (p :: procs) ret =
      (do
        let feats ← getAttrE d m i
        if feats.isEmpty then
          pure ret
        else do
          let out ← p feats idx d.is_training
          pure (dictUpdate ret out)) >>= fun x => procLoop d idx i m procs x := rfl

theorem groupLoop_nil (d : BaseDataset) (idx i : Nat) (ret : Dict) :
    groupLoop d idx i [] ret = .ok ret := rfl

theorem groupLoop_cons (d : BaseDataset) (idx i : Nat)
    (mp : String × List Processor) (g : ProcGroup) (ret : Dict) :
    groupLoop d idx i (mp :: g) ret =
      procLoop d idx i mp.1 mp.2 ret >>= fun x => groupLoop d idx i g x := rfl

theorem procLoop_empty_feats (d : BaseDataset) (idx i : Nat) (m : String)
    (f : Features) (hattr : getAttr? d m i = some f) (hemp : f.isEmpty = true) :
    ∀ (procs : List Processor) (ret : Dict), procLoop d idx i m procs ret = .ok ret := by
  have hE : getAttrE d m i = .ok f := by rw [getAttrE, hattr]
  intro procs
  induction procs with
  | nil => intro ret; rfl
  | cons p procs ih =>
    intro ret
    rw [procLoop_cons, hE, excBindOk, hemp]
    simpa using ih ret

theorem procLoop_calls (d : BaseDataset) (idx i : Nat) (m : String)
    (f : Features) (hattr : getAttr? d m i = some f) (hemp : f.isEmpty = false) :
    ∀ (procs : List Processor) (ret : Dict),
      procLoop d idx i m procs ret =
        (procs.map (fun p => p f idx d.is_training)).foldlM mergeStep ret := by
  have hE : getAttrE d m i = .ok f := by rw [getAttrE, hattr]
  intro procs
  induction procs with
  | nil => intro ret; rfl
  | cons p procs ih =>
    intro ret
    rw [procLoop_cons, hE, excBindOk, hemp, List.map_cons, List.foldlM_cons]
    cases hv : p f idx d.is_training with
    | ok out =>
      have hms : mergeStep ret (Except.ok out) = .ok (dictUpdate ret out) := rfl
      rw [hms]
      simpa [hv] using ih (dictUpdate ret out)
    | error e =>
      have hms : mergeStep ret (Except.error e) = .error e := rfl
      rw [hms]
      simp [hv, excBindErr]

theorem groupLoop_calls (d : BaseDataset) (idx i : Nat) (g : ProcGroup)
    (hpres : ∀ mp ∈ g, (getAttr? d mp.1 i).isSome) :
    ∀ ret : Dict,
      groupLoop d idx i g ret = (g.flatMap (callsFor d idx i)).foldlM mergeStep ret := by
  induction g with
  | nil => intro ret; rfl
  | cons mp g ih =>
    intro ret
    obtain ⟨f, hf⟩ := Option.isSome_iff_exists.mp (hpres mp (List.mem_cons_self ..))
    have ihg := ih (fun mp2 h2 => hpres mp2 (List.mem_cons_of_mem _ h2))
    rw [groupLoop_cons, List.flatMap_cons, exceptFoldlM_append]
    cases hemp : f.isEmpty with
    | true =>
      have hcf : callsFor d idx i mp = [] := by
        rw [callsFor]
        simp [hf, hemp]
      rw [procLoop_empty_feats d idx i mp.1 f hf hemp, hcf, excBindOk, List.foldlM_nil,
        excPureBind]
      exact ihg ret
    | false =>
      have hcf : callsFor d idx i mp = mp.2.map (fun p => p f idx d.is_training) := by
        rw [callsFor]
        simp [hf, hemp]
      rw [procLoop_calls d idx i mp.1 f hf hemp, hcf]
      cases hv : (mp.2.map (fun p => p f idx d.is_training)).foldlM mergeStep ret with
      | ok x => rw [excBindOk, excBindOk, ihg]
      | error e => rfl

theorem foldGroups_calls (d : BaseDataset) (idx : Nat) :
    ∀ (igs : List (Nat × ProcGroup)) (ret : Dict),
      (∀ ig ∈ igs, ∀ mp ∈ ig.2, (getAttr? d mp.1 ig.1).isSome) →
      igs.foldlM (fun ret ig => groupLoop d idx ig.1 ig.2 ret) ret =
        (igs.flatMap (groupCalls d idx)).foldlM mergeStep ret := by
  intro igs
  induction igs with
  | nil => intro ret hpres; rfl
  | cons ig igs ih =>
    intro ret hpres
    rw [List.foldlM_cons, List.flatMap_cons, exceptFoldlM_append]
    have hg := groupLoop_calls d idx ig.1 ig.2
      (hpres ig (List.mem_cons_self ..)) ret
    rw [groupCalls] at *
    rw [hg]
    cases hv : (ig.2.flatMap (callsFor d idx ig.1)).foldlM mergeStep ret with
    | ok x =>
      rw [excBindOk, excBindOk]
      exact ih x (fun ig2 h2 => hpres ig2 (List.mem_cons_of_mem _ h2))
    | error e => rfl

theorem tryBody_eq_mergedUnion (d : BaseDataset) (idx : Nat)
    (hpres : attrsPresent d) : tryBody d idx = mergedUnion d idx := by
  rw [tryBody, mergedUnion, processorCalls]
  exact foldGroups_calls d idx d.processors.enum [] hpres

theorem foldlM_mergeStep_ok :
    ∀ (calls : List (Except String Dict)) (acc r : Dict),
      calls.foldlM mergeStep acc = .ok r →
      ∃ outs : List Dict, calls = outs.map Except.ok ∧ r = outs.foldl dictUpdate acc := by
  intro calls
  induction calls with
  | nil =>
    intro acc r h
    rw [List.foldlM_nil] at h
    have har : acc = r := Except.ok.inj h
    exact ⟨[], rfl, by rw [← har]; rfl⟩
  | cons c calls ih =>
    intro acc r h
    rw [List.foldlM_cons] at h
    cases c with
    | error e =>
      have hms : mergeStep acc (Except.error e) = .error e := rfl
      rw [hms, excBindErr] at h
      exact absurd h (by simp)
    | ok out =>
      have hms : mergeStep acc (Except.ok out) = .ok (dictUpdate acc out) := rfl
      rw [hms, excBindOk] at h
      obtain ⟨outs, hc, hr⟩ := ih (dictUpdate acc out) r h
      exact ⟨out :: outs, by rw [List.map_cons, hc], by rw [List.foldl_cons, hr]⟩

theorem foldlM_mergeStep_map_ok :
    ∀ (outs : List Dict) (acc : Dict),
      (outs.map Except.ok).foldlM mergeStep acc = .ok (outs.foldl dictUpdate acc) := by
  intro outs
  induction outs with
  | nil => intro acc; rfl
  | cons out outs ih =>
    intro acc
    rw [List.map_cons, List.foldlM_cons]
    have hms : mergeStep acc (Except.ok out) = .ok (dictUpdate acc out) := rfl
    rw [hms, excBindOk, ih, List.foldl_cons]

theorem procLoop_congr (d d2 : BaseDataset) (idx i : Nat) (m : String)
    (htr : d.is_training = d2.is_training)
    (hattr : getAttr? d m i = getAttr? d2 m i) :
    ∀ (procs : List Processor) (ret : Dict),
      procLoop d idx i m procs ret = procLoop d2 idx i m procs ret := by
  have hE : getAttrE d m i = getAttrE d2 m i := by rw [getAttrE, getAttrE, hattr]
  intro procs
  induction procs with
  | nil => intro ret; rfl
  | cons p procs ih =>
    intro ret
    rw [procLoop_cons, procLoop_cons, hE, htr]
    cases hv : getAttrE d2 m i with
    | error e => rfl
    | ok f =>
      simp only [excBindOk]
      cases hfe : f.isEmpty with
      | true =>
        rw [if_pos rfl, excPureBind, excPureBind]
        exact ih ret
      | false =>
        rw [if_neg (by simp)]
        cases hpv : p f idx d2.is_training with
        | error e => rfl
        | ok out =>
          simp only [excBindOk]
          rw [excPureBind, excPureBind]
          exact ih (dictUpdate ret out)

theorem groupLoop_congr (d d2 : BaseDataset) (idx i : Nat)
    (htr : d.is_training = d2.is_training) :
    ∀ (g : ProcGroup), (∀ mp ∈ g, getAttr? d mp.1 i = getAttr? d2 mp.1 i) →
      ∀ ret, groupLoop d idx i g ret = groupLoop d2 idx i g ret := by
  intro g
  induction g with
  | nil => intro _ ret; rfl
  | cons mp g ih =>
    intro hattr ret
    rw [groupLoop_cons, groupLoop_cons,
      procLoop_congr d d2 idx i mp.1 htr (hattr mp (List.mem_cons_self ..)) mp.2 ret]
    cases hv : procLoop d2 idx i mp.1 mp.2 ret with
    | error e => rfl
    | ok x =>
      rw [excBindOk, excBindOk]
      exact ih (fun mp2 h2 => hattr mp2 (List.mem_cons_of_mem _ h2)) x

theorem foldGroups_congr (d d2 : BaseDataset) (idx : Nat)
    (htr : d.is_training = d2.is_training) :
    ∀ (igs : List (Nat × ProcGroup)),
      (∀ ig ∈ igs, ∀ mp ∈ ig.2, getAttr? d mp.1 ig.1 = getAttr? d2 mp.1 ig.1) →
      ∀ ret, igs.foldlM (fun ret ig => groupLoop d idx ig.1 ig.2 ret) ret =
        igs.foldlM (fun ret ig => groupLoop d2 idx ig.1 ig.2 ret) ret := by
  intro igs
  induction igs with
  | nil => intro _ ret; rfl
  | cons ig igs ih =>
    intro hattr ret
    rw [List.foldlM_cons, List.foldlM_cons,
      groupLoop_congr d d2 idx ig.1 htr ig.2 (hattr ig (List.mem_cons_self ..)) ret]
    cases hv : groupLoop d2 idx ig.1 ig.2 ret with
    | error e => rfl
    | ok x =>
      rw [excBindOk, excBindOk]
      exact ih (fun ig2 h2 => hattr ig2 (List.mem_cons_of_mem _ h2)) x

theorem tryBody_congr (d d2 : BaseDataset) (idx : Nat)
    (hproc : d.processors = d2.processors)
    (htr : d.is_training = d2.is_training)
    (hattr : ∀ ig ∈ d.processors.enum, ∀ mp ∈ ig.2,
      getAttr? d mp.1 ig.1 = getAttr? d2 mp.1 ig.1) :
    tryBody d idx = tryBody d2 idx := by
  rw [tryBody, tryBody, ← hproc]
  exact foldGroups_congr d d2 idx htr d.processors.enum hattr []

/-! ### Lemmas about __getitem__ -/

theorem tryBody_consec (d : BaseDataset) (c idx : Nat) :
    tryBody { d with consecutive_errors := c } idx = tryBody d idx := rfl

theorem lenOf_consec (d : BaseDataset) (c : Nat) :
    lenOf { d with consecutive_errors := c } = lenOf d := rfl

theorem getitem_ok_eq (retry : Nat) (d : BaseDataset) (idx : Nat) (ret : Dict)
    (h : tryBody d idx = .ok ret) :
    getitem retry d idx = ({ d with consecutive_errors := 0 }, .ok ret) := by
  rw [getitem.eq_def, h]

theorem getitem_retry_eq (retry : Nat) (d : BaseDataset) (idx : Nat) (e : String)
    (h : tryBody d idx = .error e) (hb : d.consecutive_errors + 1 < retry) :
    getitem retry d idx =
      getitem retry { d with consecutive_errors := d.consecutive_errors + 1 }
        ((idx + 1) % lenOf d) := by
  rw [getitem.eq_def, h]
  simp [hb]

theorem getitem_raise_eq (retry : Nat) (d : BaseDataset) (idx : Nat) (e : String)
    (h : tryBody d idx = .error e) (hb : ¬ d.consecutive_errors + 1 < retry) :
    getitem retry d idx =
      ({ d with consecutive_errors := d.consecutive_errors + 1 }, .error e) := by
  rw [getitem.eq_def, h]
  simp [hb]

theorem getitem_invariants :
    ∀ (fuel retry : Nat) (d : BaseDataset) (idx : Nat),
      retry - d.consecutive_errors ≤ fuel →
      ((getitem retry d idx).1.processors = d.processors ∧
       (getitem retry d idx).1.is_training = d.is_training ∧
       (getitem retry d idx).1.attrs = d.attrs ∧
       (getitem retry d idx).1.lengths = d.lengths) ∧
      (∀ r, (getitem retry d idx).2 = .ok r →
        (getitem retry d idx).1.consecutive_errors = 0) ∧
      (∀ e, (getitem retry d idx).2 = .error e →
        retry ≤ (getitem retry d idx).1.consecutive_errors) := by
  intro fuel
  induction fuel with
  | zero =>
    intro retry d idx hf
    have hb : ¬ d.consecutive_errors + 1 < retry := by omega
    cases htb : tryBody d idx with
    | ok ret =>
      rw [getitem_ok_eq retry d idx ret htb]
      exact ⟨⟨rfl, rfl, rfl, rfl⟩, fun r hr => rfl, fun e he => by simp at he⟩
    | error e2 =>
      rw [getitem_raise_eq retry d idx e2 htb hb]
      refine ⟨⟨rfl, rfl, rfl, rfl⟩, fun r hr => by simp at hr, fun e3 he => ?_⟩
      show retry ≤ d.consecutive_errors + 1
      omega
  | succ n ih =>
    intro retry d idx hf
    cases htb : tryBody d idx with
    | ok ret =>
      rw [getitem_ok_eq retry d idx ret htb]
      exact ⟨⟨rfl, rfl, rfl, rfl⟩, fun r hr => rfl, fun e he => by simp at he⟩
    | error e2 =>
      by_cases hb : d.consecutive_errors + 1 < retry
      · rw [getitem_retry_eq retry d idx e2 htb hb]
        exact ih retry { d with consecutive_errors := d.consecutive_errors + 1 }
          ((idx + 1) % lenOf d) (show retry - (d.consecutive_errors + 1) ≤ n by omega)
      · rw [getitem_raise_eq retry d idx e2 htb hb]
        refine ⟨⟨rfl, rfl, rfl, rfl⟩, fun r hr => by simp at hr, fun e3 he => ?_⟩
        show retry ≤ d.consecutive_errors + 1
        omega

/-! ### Derived facts about constructed datasets -/

theorem init_attr_exists (pre : List Preprocessor) (procs : List ProcGroup)
    (tr : Bool) (d : BaseDataset) (h : initDataset pre procs tr = some d)
    (k : Nat) (p : Preprocessor) (g : ProcGroup)
    (hp : pre[k]? = some p) (hg : procs[k]? = some g)
    (mp : String × List Processor) (hmp : mp ∈ g) :
    ((mp.1, k), p mp.1) ∈ d.attrs := by
  obtain ⟨_, _, _, hattrs, _, _⟩ := initDataset_fields pre procs tr d h
  rw [hattrs, initLoop_fst_mem]
  right
  exact ⟨k, p, g, hp, hg, mp, hmp, by simp⟩

theorem getAttr_init_char (pre : List Preprocessor) (procs : List ProcGroup)
    (tr : Bool) (d : BaseDataset) (h : initDataset pre procs tr = some d)
    (m : String) (i : Nat) (f : Features) (hA : getAttr? d m i = some f) :
    ∃ (k : Nat) (p : Preprocessor) (g : ProcGroup) (mp : String × List Processor),
      pre[k]? = some p ∧ procs[k]? = some g ∧ mp ∈ g ∧ mp.1 = m ∧ k = i ∧ f = p m := by
  rw [getAttr?] at hA
  cases hfind : d.attrs.find? (fun a => a.1 == (m, i)) with
  | none => rw [hfind] at hA; simp at hA
  | some a =>
    rw [hfind] at hA
    simp at hA
    have hkey : a.1 = (m, i) := by simpa using List.find?_some hfind
    have hmem : a ∈ d.attrs := List.mem_of_find?_eq_some hfind
    obtain ⟨_, _, _, hattrs, _, _⟩ := initDataset_fields pre procs tr d h
    rw [hattrs, initLoop_fst_mem] at hmem
    rcases hmem with h0 | ⟨k, p, g, hp, hg, mp, hmp, ha⟩
    · simp at h0
    · rw [ha] at hkey
      rw [Prod.mk.injEq] at hkey
      have hm1 : mp.1 = m := hkey.1
      have hki : k = i := by
        have := hkey.2
        omega
      refine ⟨k, p, g, mp, hp, hg, hmp, hm1, hki, ?_⟩
      rw [← hA, ha]
      simp [hm1]

theorem init_getAttr (pre : List Preprocessor) (procs : List ProcGroup)
    (tr : Bool) (d : BaseDataset) (h : initDataset pre procs tr = some d)
    (k : Nat) (p : Preprocessor) (g : ProcGroup)
    (hp : pre[k]? = some p) (hg : procs[k]? = some g)
    (mp : String × List Processor) (hmp : mp ∈ g) :
    getAttr? d mp.1 k = some (p mp.1) := by
  have hsome : (d.attrs.find? (fun a => a.1 == (mp.1, k))).isSome :=
    List.find?_isSome.mpr ⟨((mp.1, k), p mp.1),
      init_attr_exists pre procs tr d h k p g hp hg mp hmp, by simp⟩
  obtain ⟨a, ha⟩ := Option.isSome_iff_exists.mp hsome
  have hf : getAttr? d mp.1 k = some a.2 := by rw [getAttr?, ha]; rfl
  obtain ⟨k2, p2, g2, mp2, hp2, hg2, hmp2, hm2, hk2, hf2⟩ :=
    getAttr_init_char pre procs tr d h mp.1 k a.2 hf
  subst hk2
  rw [hp] at hp2
  have hpp : p = p2 := Option.some.inj hp2
  rw [hf, hf2, hpp]

theorem init_lengths_all_eq (pre : List Preprocessor) (procs : List ProcGroup)
    (tr : Bool) (d : BaseDataset) (h : initDataset pre procs tr = some d) :
    lenOf? d = some (lenOf d) ∧ ∀ x ∈ d.lengths, x = lenOf d := by
  obtain ⟨_, _, _, _, hlen, hded⟩ := initDataset_fields pre procs tr d h
  obtain ⟨hne, hall⟩ := (dedup_length_one_iff _).mp hded
  rw [← hlen] at hne hall
  cases hL : d.lengths with
  | nil => exact absurd hL hne
  | cons x xs =>
    constructor
    · rw [lenOf?, lenOf, hL]
      rfl
    · intro y hy
      rw [lenOf, hL]
      rw [hL] at hall
      exact hall y (hL ▸ hy) x (List.mem_cons_self ..)

theorem init_attr_len (pre : List Preprocessor) (procs : List ProcGroup)
    (tr : Bool) (d : BaseDataset) (h : initDataset pre procs tr = some d)
    (m : String) (i : Nat) (f : Features)
    (hA : getAttr? d m i = some f) (hne : f.isEmpty = false) :
    firstColLen f ∈ d.lengths := by
  obtain ⟨k, p, g, mp, hp, hg, hmp, hm1, hki, hf⟩ :=
    getAttr_init_char pre procs tr d h m i f hA
  obtain ⟨_, _, _, _, hlen, _⟩ := initDataset_fields pre procs tr d h
  rw [hlen, initLoop_snd_mem]
  right
  refine ⟨k, p, g, hp, hg, mp, hmp, ?_, ?_⟩
  · rw [hm1, ← hf]
    exact hne
  · rw [hm1, ← hf]

/-! ### Claim theorems -/

/-- Claim C1 (bounded retry): when preparing sample idx raises an exception,
__getitem__ tolerates the error and retries at the next index as long as the
consecutive-failure count stays below GET_ITEM_ERROR_RETRY; once the count
(after the increment for this failure) reaches the bound, the call re-raises
the last exception instead of retrying further. -/
theorem getitem_bounded_retry :
    ∀ (retry : Nat) (d : BaseDataset) (idx : Nat) (e : String),
      tryBody d idx = .error e →
      (d.consecutive_errors + 1 < retry →
        getitem retry d idx =
          getitem retry { d with consecutive_errors := d.consecutive_errors + 1 }
            ((idx + 1) % lenOf d)) ∧
      (retry ≤ d.consecutive_errors + 1 →
        getitem retry d idx =
          ({ d with consecutive_errors := d.consecutive_errors + 1 }, .error e)) := by
  intro retry d idx e he
  constructor
  · intro hb
    exact getitem_retry_eq retry d idx e he hb
  · intro hb
    exact getitem_raise_eq retry d idx e he (by omega)

/-- Claim C2 (per-sample error tolerance by substitution): when the
preparations of the first n indices of the wrap-around chain starting at idx
all fail, the consecutive-failure budget is not exhausted, and the
preparation of the n-th chained index (idx advanced n times by
+1 modulo the dataset length) succeeds, then __getitem__(idx) returns that
succeeding index's feature dictionary and resets the error counter. -/
theorem getitem_error_substitution :
    ∀ (n retry : Nat) (d : BaseDataset) (idx : Nat) (ret : Dict),
      d.consecutive_errors + n < retry →
      (∀ k < n, ∃ e, tryBody d (chainIdx (lenOf d) idx k) = .error e) →
      tryBody d (chainIdx (lenOf d) idx n) = .ok ret →
      getitem retry d idx = ({ d with consecutive_errors := 0 }, .ok ret) := by
  intro n
  induction n with
  | zero =>
    intro retry d idx ret hb hfail hok
    exact getitem_ok_eq retry d idx ret hok
  | succ n ih =>
    intro retry d idx ret hb hfail hok
    obtain ⟨e, he⟩ := hfail 0 (Nat.succ_pos n)
    rw [getitem_retry_eq retry d idx e he (by omega)]
    have hf2 : ∀ k < n, ∃ e2,
        tryBody { d with consecutive_errors := d.consecutive_errors + 1 }
          (chainIdx (lenOf { d with consecutive_errors := d.consecutive_errors + 1 })
            ((idx + 1) % lenOf d) k) = .error e2 := by
      intro k hk
      rw [tryBody_consec, lenOf_consec, chainIdx_shift]
      exact hfail (k + 1) (by omega)
    have ho2 : tryBody { d with consecutive_errors := d.consecutive_errors + 1 }
        (chainIdx (lenOf { d with consecutive_errors := d.consecutive_errors + 1 })
          ((idx + 1) % lenOf d) n) = .ok ret := by
      rw [tryBody_consec, lenOf_consec, chainIdx_shift]
      exact hok
    exact ih retry { d with consecutive_errors := d.consecutive_errors + 1 }
      ((idx + 1) % lenOf d) ret
      (show d.consecutive_errors + 1 + n < retry by omega) hf2 ho2

/-- Claim C3 (per-index feature dictionaries): at an index whose preparation
raises nothing, __getitem__ returns the try-block dictionary with the error
counter reset, and (whenever the attributes read by the loops exist) that
dictionary is the fold of dict.update over the dictionaries produced by the
data processors for that index. -/
theorem getitem_success_dict :
    ∀ (retry : Nat) (d : BaseDataset) (idx : Nat) (ret : Dict),
      tryBody d idx = .ok ret →
      getitem retry d idx = ({ d with consecutive_errors := 0 }, .ok ret) ∧
      (attrsPresent d →
        ∃ outs : List Dict, processorCalls d idx = outs.map Except.ok ∧
          ret = outs.foldl dictUpdate []) := by
  intro retry d idx ret h
  refine ⟨getitem_ok_eq retry d idx ret h, fun hpres => ?_⟩
  have hmu := tryBody_eq_mergedUnion d idx hpres
  rw [h, mergedUnion] at hmu
  exact foldlM_mergeStep_ok (processorCalls d idx) [] ret hmu.symm

/-- Claim C4 (complete delegation of feature extraction): when every
attribute read by the try block exists, the try block equals the
left-to-right merged union of the per-model processor results over every
group, every modality of that group with non-empty stored features, and
every processor of that modality; in particular when all those calls return
dictionaries, __getitem__ returns exactly their left-to-right merged union,
adding, removing, and transforming nothing. -/
theorem getitem_delegates_merge :
    ∀ (d : BaseDataset) (idx : Nat),
      attrsPresent d →
      tryBody d idx = mergedUnion d idx ∧
      (∀ (retry : Nat) (outs : List Dict),
        processorCalls d idx = outs.map Except.ok →
        getitem retry d idx =
          ({ d with consecutive_errors := 0 }, .ok (outs.foldl dictUpdate []))) := by
  intro d idx hpres
  refine ⟨tryBody_eq_mergedUnion d idx hpres, fun retry outs houts => ?_⟩
  apply getitem_ok_eq
  rw [tryBody_eq_mergedUnion d idx hpres, mergedUnion, houts]
  exact foldlM_mergeStep_map_ok outs []

/-- Claim C5 (indexable-dataset interface): after a successful __init__,
__len__ succeeds and returns the first recorded length, every recorded
length equals it, and the sample count of every stored non-empty
per-modality feature collection equals it. -/
theorem dataset_len_interface :
    ∀ (pre : List Preprocessor) (procs : List ProcGroup) (tr : Bool) (d : BaseDataset),
      initDataset pre procs tr = some d →
      lenOf? d = some (lenOf d) ∧
      (∀ l ∈ d.lengths, l = lenOf d) ∧
      (∀ (m : String) (i : Nat) (f : Features),
        getAttr? d m i = some f → f.isEmpty = false → firstColLen f = lenOf d) := by
  intro pre procs tr d h
  obtain ⟨h1, h2⟩ := init_lengths_all_eq pre procs tr d h
  exact ⟨h1, h2, fun m i f hA hne => h2 _ (init_attr_len pre procs tr d h m i f hA hne)⟩

/-- Claim C6 (preprocessor delegation at construction): for every position k
of the zipped (preprocessor, processors) lists and every modality entry of
the k-th processors group, __init__ stores the k-th preprocessor's
transform result for that modality as the attribute <modality>_<k>. -/
theorem init_preprocessor_delegation :
    ∀ (pre : List Preprocessor) (procs : List ProcGroup) (tr : Bool) (d : BaseDataset),
      initDataset pre procs tr = some d →
      ∀ (k : Nat) (p : Preprocessor) (g : ProcGroup),
        pre[k]? = some p → procs[k]? = some g →
        ∀ mp ∈ g, getAttr? d mp.1 k = some (p mp.1) :=
  fun pre procs tr d h k p g hp hg mp hmp =>
    init_getAttr pre procs tr d h k p g hp hg mp hmp

/-- Claim C7 (one processor pipeline per modality): the try block reads only
the stored features of each processor's own modality within its own group:
two dataset states with the same processors and training flag that agree on
the attribute <modality>_<i> for every modality registered in group i are
indistinguishable to __getitem__'s try block, whatever their other stored
features are. -/
theorem processor_modality_isolation :
    ∀ (d d2 : BaseDataset) (idx : Nat),
      d.processors = d2.processors →
      d.is_training = d2.is_training →
      (∀ (i : Nat) (g : ProcGroup), d.processors[i]? = some g →
        ∀ mp ∈ g, getAttr? d mp.1 i = getAttr? d2 mp.1 i) →
      tryBody d idx = tryBody d2 idx := by
  intro d d2 idx hproc htr hattr
  apply tryBody_congr d d2 idx hproc htr
  intro ig hig mp hmp
  exact hattr ig.1 ig.2 (List.mem_enum_iff_getElem?.mp hig) mp hmp

/-- Claim C8 (constructor length assertion): __init__ completes without an
AssertionError exactly when some modality of some zipped group produces a
non-empty feature collection and all recorded lengths agree; and after a
successful __init__, __len__ never fails. -/
theorem init_assert_iff :
    ∀ (pre : List Preprocessor) (procs : List ProcGroup) (tr : Bool),
      ((∃ d, initDataset pre procs tr = some d) ↔
        ((∃ (k : Nat) (p : Preprocessor) (g : ProcGroup) (mp : String × List Processor),
            pre[k]? = some p ∧ procs[k]? = some g ∧ mp ∈ g ∧ (p mp.1).isEmpty = false) ∧
         ∀ x ∈ (initLoop 0 pre procs ([], [])).2,
           ∀ y ∈ (initLoop 0 pre procs ([], [])).2, x = y)) ∧
      ∀ d, initDataset pre procs tr = some d → (lenOf? d).isSome := by
  intro pre procs tr
  constructor
  · have hiff : (∃ d, initDataset pre procs tr = some d) ↔
        (initLoop 0 pre procs ([], [])).2.dedup.length = 1 := by
      constructor
      · rintro ⟨d, hd⟩
        exact (initDataset_fields pre procs tr d hd).2.2.2.2.2
      · intro hc
        have hval : initDataset pre procs tr =
            some { processors := procs, is_training := tr, consecutive_errors := 0,
                   attrs := (initLoop 0 pre procs ([], [])).1,
                   lengths := (initLoop 0 pre procs ([], [])).2 } := by
          simp only [initDataset]
          rw [if_pos hc]
        exact ⟨_, hval⟩
    rw [hiff, dedup_length_one_iff]
    have hne : (initLoop 0 pre procs ([], [])).2 ≠ [] ↔
        (∃ (k : Nat) (p : Preprocessor) (g : ProcGroup) (mp : String × List Processor),
          pre[k]? = some p ∧ procs[k]? = some g ∧ mp ∈ g ∧ (p mp.1).isEmpty = false) := by
      constructor
      · intro h2
        obtain ⟨x, hx⟩ := List.exists_mem_of_ne_nil _ h2
        rw [initLoop_snd_mem] at hx
        rcases hx with h3 | ⟨k, p, g, hk, hgk, mp, hmp, hne2, _⟩
        · simp at h3
        · exact ⟨k, p, g, mp, hk, hgk, hmp, hne2⟩
      · rintro ⟨k, p, g, mp, hk, hgk, hmp, hne2⟩
        apply List.ne_nil_of_mem (a := firstColLen (p mp.1))
        rw [initLoop_snd_mem]
        right
        exact ⟨k, p, g, hk, hgk, mp, hmp, hne2, rfl⟩
    rw [hne]
  · intro d hd
    obtain ⟨hl2, _⟩ := init_lengths_all_eq pre procs tr d hd
    rw [hl2]
    rfl

/-- Claim C9 (consecutive, not cumulative, error counting): the counter is 0
after construction; each failed preparation advances the state by exactly
one increment (then either retries or re-raises); every successful return
resets the counter to 0; and a re-raised exception is only ever delivered
with the counter at or above the retry bound, so failures separated by a
success never trigger the re-raise. -/
theorem consecutive_error_policy :
    (∀ (pre : List Preprocessor) (procs : List ProcGroup) (tr : Bool) (d : BaseDataset),
      initDataset pre procs tr = some d → d.consecutive_errors = 0) ∧
    (∀ (retry : Nat) (d : BaseDataset) (idx : Nat) (e : String),
      tryBody d idx = .error e →
      getitem retry d idx =
          getitem retry { d with consecutive_errors := d.consecutive_errors + 1 }
            ((idx + 1) % lenOf d) ∨
      getitem retry d idx =
          ({ d with consecutive_errors := d.consecutive_errors + 1 }, .error e)) ∧
    (∀ (retry : Nat) (d : BaseDataset) (idx : Nat) (r : Dict),
      (getitem retry d idx).2 = .ok r → (getitem retry d idx).1.consecutive_errors = 0) ∧
    (∀ (retry : Nat) (d : BaseDataset) (idx : Nat) (e : String),
      (getitem retry d idx).2 = .error e →
        retry ≤ (getitem retry d idx).1.consecutive_errors) := by
  refine ⟨?_, ?_, ?_, ?_⟩
  · intro pre procs tr d h
    exact (initDataset_fields pre procs tr d h).2.2.1
  · intro retry d idx e he
    by_cases hb : d.consecutive_errors + 1 < retry
    · exact Or.inl (getitem_retry_eq retry d idx e he hb)
    · exact Or.inr (getitem_raise_eq retry d idx e he hb)
  · intro retry d idx r
    exact (getitem_invariants (retry - d.consecutive_errors) retry d idx
      (Nat.le_refl _)).2.1 r
  · intro retry d idx e
    exact (getitem_invariants (retry - d.consecutive_errors) retry d idx
      (Nat.le_refl _)).2.2 e

/-- Claim C10 (frame condition on __getitem__): whether it returns a dict or
propagates an exception, __getitem__ leaves the stored per-modality feature
attributes, the processors, the training flag, and the lengths unchanged;
only _consecutive_errors may differ in the resulting state. -/
theorem getitem_frame_condition :
    ∀ (retry : Nat) (d : BaseDataset) (idx : Nat),
      (getitem retry d idx).1.processors = d.processors ∧
      (getitem retry d idx).1.is_training = d.is_training ∧
      (getitem retry d idx).1.attrs = d.attrs ∧
      (getitem retry d idx).1.lengths = d.lengths :=
  fun retry d idx =>
    (getitem_invariants (retry - d.consecutive_errors) retry d idx (Nat.le_refl _)).1

/-! ### Witness theorems: the claim theorems applied at concrete inputs -/

/-- Witness for C1: with the bound set to 1, the failure at index 0 is
re-raised with the counter at 1. -/
theorem getitem_bounded_retry_witness :
    tryBody d0 0 = .error "boom" ∧
    getitem 1 d0 0 = ({ d0 with consecutive_errors := 1 }, .error "boom") :=
  ⟨rfl, (getitem_bounded_retry 1 d0 0 "boom" rfl).2 (by decide)⟩

/-- Witness for C2: index 0 fails, index 1 = (0 + 1) % 2 succeeds, and
__getitem__(0) returns index 1's dictionary with the counter reset. -/
theorem getitem_error_substitution_witness :
    tryBody d0 (chainIdx (lenOf d0) 0 1) = .ok [("v", 1)] ∧
    getitem 2 d0 0 = ({ d0 with consecutive_errors := 0 }, .ok [("v", 1)]) :=
  ⟨rfl,
    getitem_error_substitution 1 2 d0 0 [("v", 1)] (by decide)
      (fun k hk => by
        have hk0 : k = 0 := by omega
        subst hk0
        exact ⟨"boom", rfl⟩)
      rfl⟩

/-- Witness for C3: index 1 succeeds and __getitem__ returns its merged
dictionary. -/
theorem getitem_success_dict_witness :
    tryBody d0 1 = .ok [("v", 1)] ∧
    getitem 1 d0 1 = ({ d0 with consecutive_errors := 0 }, .ok [("v", 1)]) :=
  ⟨rfl, (getitem_success_dict 1 d0 1 [("v", 1)] rfl).1⟩

/-- Witness for C4: every attribute of d0 is present, the try block equals
the merged union, and __getitem__(1) returns the fold of the single
processor output. -/
theorem getitem_delegates_merge_witness :
    attrsPresent d0 ∧
    tryBody d0 1 = mergedUnion d0 1 ∧
    getitem 5 d0 1 =
      ({ d0 with consecutive_errors := 0 }, .ok ([[("v", 1)]].foldl dictUpdate [])) :=
  ⟨by decide, (getitem_delegates_merge d0 1 (by decide)).1,
    (getitem_delegates_merge d0 1 (by decide)).2 5 [[("v", 1)]] rfl⟩

/-- Witness for C5: the dataset built from preA and procsA has length 2 and
its stored text features have sample count 2 as well. -/
theorem dataset_len_interface_witness :
    initDataset [preA] procsA false = some d0 ∧
    lenOf? d0 = some (lenOf d0) ∧
    firstColLen fTwo = lenOf d0 :=
  ⟨rfl, (dataset_len_interface [preA] procsA false d0 rfl).1,
    (dataset_len_interface [preA] procsA false d0 rfl).2.2 "text" 0 fTwo rfl rfl⟩

/-- Witness for C6: __init__ stores preA's transform of the text modality
as the attribute text_0. -/
theorem init_preprocessor_delegation_witness :
    initDataset [preA] procsA false = some d0 ∧
    getAttr? d0 "text" 0 = some (preA "text") :=
  ⟨rfl,
    init_preprocessor_delegation [preA] procsA false d0 rfl 0 preA
      [("text", [pAt0Fails])] (by simp) (by simp [procsA])
      ("text", [pAt0Fails]) (by simp)⟩

/-- Witness for C7: adding a stored attribute under a key registered in no
processor group leaves the try block's outcome unchanged. -/
theorem processor_modality_isolation_witness :
    tryBody d0 0 = tryBody d0b 0 :=
  processor_modality_isolation d0 d0b 0 rfl rfl
    (by
      intro i g hg mp hmp
      match i, hg with
      | 0, hg =>
        have hgg : [("text", [pAt0Fails])] = g := by
          simpa [d0, procsA] using hg
        subst hgg
        have hmp2 : mp = ("text", [pAt0Fails]) := by simpa using hmp
        subst hmp2
        rfl
      | i + 1, hg => simp [d0, procsA] at hg)

/-- Witness for C8: construction from preA and procsA succeeds and its
__len__ is defined. -/
theorem init_assert_iff_witness :
    (∃ d, initDataset [preA] procsA false = some d) ∧ (lenOf? d0).isSome :=
  ⟨(init_assert_iff [preA] procsA false).1.mpr
      ⟨⟨0, preA, [("text", [pAt0Fails])], ("text", [pAt0Fails]),
        by simp, by simp [procsA], by simp, rfl⟩, by decide⟩,
    (init_assert_iff [preA] procsA false).2 d0 rfl⟩

/-- Witness for C9: the counter is 0 after construction, a failure advances
the state by one increment, a successful call ends with counter 0, and the
always-failing dataset's raise happens with the counter at the bound. -/
theorem consecutive_error_policy_witness :
    d0.consecutive_errors = 0 ∧
    (getitem 1 d0 0 =
        getitem 1 { d0 with consecutive_errors := d0.consecutive_errors + 1 }
          ((0 + 1) % lenOf d0) ∨
     getitem 1 d0 0 =
        ({ d0 with consecutive_errors := d0.consecutive_errors + 1 }, .error "boom")) ∧
    (getitem 1 d0 1).1.consecutive_errors = 0 ∧
    1 ≤ (getitem 1 dBad 0).1.consecutive_errors :=
  ⟨consecutive_error_policy.1 [preA] procsA false d0 rfl,
    consecutive_error_policy.2.1 1 d0 0 "boom" rfl,
    consecutive_error_policy.2.2.1 1 d0 1 [("v", 1)]
      (by rw [getitem_ok_eq 1 d0 1 [("v", 1)] rfl]),
    consecutive_error_policy.2.2.2 1 dBad 0 "bad"
      (by rw [getitem_raise_eq 1 dBad 0 "bad" rfl (by decide)])⟩
